/-
Verification of the text-distillation core of the summarizer
(src/app/api/summarize/route.ts): sanitization, sentence segmentation,
tokenization, frequency-based scoring, selection and composition.

Strings are embedded as lists of characters (`Str`).  The JavaScript
regular-expression operations are embedded as explicit scans over the
character list.  Unicode-dependent primitives (`toLowerCase`, NFD
decomposition, the `Diacritic` property) are modelled on the Basic
Latin / Latin-1 repertoire actually exercised by the French stop-word
logic of the source.  JavaScript `Map` is embedded as an insertion-
ordered association list, and the stable `Array.prototype.sort` as a
stable insertion sort.  Floating-point sentence scores are modelled as
exact rationals.
-/
import Mathlib

set_option maxRecDepth 100000
set_option maxHeartbeats 4000000

/-- Strings of the embedded program: lists of characters. -/
abbrev Str := List Char

/-- The character class of the JavaScript regex `\s` (WhiteSpace and
LineTerminator code points). -/
def isWs (c : Char) : Bool :=
  c = ' ' ∨ c = '\t' ∨ c = '\n' ∨ c.toNat = 0x0b ∨ c.toNat = 0x0c ∨
  c = '\r' ∨ c.toNat = 0xa0 ∨ c.toNat = 0x1680 ∨
  (0x2000 ≤ c.toNat ∧ c.toNat ≤ 0x200a) ∨ c.toNat = 0x2028 ∨
  c.toNat = 0x2029 ∨ c.toNat = 0x202f ∨ c.toNat = 0x205f ∨
  c.toNat = 0x3000 ∨ c.toNat = 0xfeff

/-- The character class `[\u0000-\u001f\u007f]` of ASCII control characters. -/
def isCtrl (c : Char) : Bool :=
  c.toNat ≤ 0x1f ∨ c.toNat = 0x7f

/-- JavaScript `String.prototype.trim`: drop leading and trailing `\s`. -/
def jsTrim (l : Str) : Str :=
  ((l.dropWhile isWs).reverse.dropWhile isWs).reverse

/-- Scan implementing `replace(/\s+/g, " ")`: each maximal whitespace run
becomes a single space.  The flag records whether the previous character
was whitespace (i.e. whether we are inside a run already represented). -/
def collapseWsAux : Bool → Str → Str
  | _, [] => []
  | prevWs, c :: cs =>
    if isWs c then
      if prevWs then collapseWsAux true cs
      else ' ' :: collapseWsAux true cs
    else c :: collapseWsAux false cs

/-- `replace(/\s+/g, " ")`. -/
def collapseWs (l : Str) : Str := collapseWsAux false l

/-- `replace(/[\u0000-\u001f\u007f]/g, " ")`. -/
def replaceCtrl (l : Str) : Str :=
  l.map fun c => if isCtrl c then ' ' else c

/-- `sanitizeText` of the source: collapse whitespace runs, then replace
ASCII control characters with spaces, then trim. -/
def sanitizeText (text : Str) : Str :=
  jsTrim (replaceCtrl (collapseWs text))

/-- Sentence-terminal punctuation `[.!?]`. -/
def isTerm (c : Char) : Bool :=
  c = '.' ∨ c = '!' ∨ c = '?'

/-- The lookahead class `[A-ZÀ-ÖØ-Þ]` of the sentence-boundary regex. -/
def isBoundaryUpper (c : Char) : Bool :=
  ('A' ≤ c ∧ c ≤ 'Z') ∨ ('À' ≤ c ∧ c ≤ 'Ö') ∨ ('Ø' ≤ c ∧ c ≤ 'Þ')

/--
Scan implementing `split(/(?<=[.!?])\s+(?=[A-ZÀ-ÖØ-Þ])/u)`.

`prevTerm` records whether the previous character is `[.!?]`; `run` holds
(reversed) a pending whitespace run that started right after terminal
punctuation and may become a separator; `acc` holds the current piece
(reversed).  A pending run becomes a separator exactly when the first
character after it is in the uppercase lookahead class; otherwise the run
is folded back into the current piece (the regex `\s+` cannot match a
shorter part of the run, because after backtracking the lookahead would
test a whitespace character).
-/
def sentenceSplitAux (prevTerm : Bool) (run acc : Str) : Str → List Str
  | [] => [(run ++ acc).reverse]
  | c :: cs =>
    if run ≠ [] then
      if isWs c then sentenceSplitAux prevTerm (c :: run) acc cs
      else if isBoundaryUpper c then
        acc.reverse :: sentenceSplitAux (isTerm c) [] [c] cs
      else sentenceSplitAux (isTerm c) [] (c :: (run ++ acc)) cs
    else
      if prevTerm ∧ isWs c then sentenceSplitAux prevTerm [c] acc cs
      else sentenceSplitAux (isTerm c) [] (c :: acc) cs

/-- `text.split(/(?<=[.!?])\s+(?=[A-ZÀ-ÖØ-Þ])/u)`. -/
def sentenceSplit (text : Str) : List Str :=
  sentenceSplitAux false [] [] text

/-- `MIN_SENTENCE_LENGTH` of the source. -/
def MIN_SENTENCE_LENGTH : Nat := 40

/-- `MAX_KEY_POINTS` of the source. -/
def MAX_KEY_POINTS : Nat := 6

/-- `splitIntoSentences` of the source: split at sentence boundaries, trim
each piece, keep pieces of length at least `MIN_SENTENCE_LENGTH`. -/
def splitIntoSentences (text : Str) : List Str :=
  ((sentenceSplit text).map jsTrim).filter
    fun sentence => MIN_SENTENCE_LENGTH ≤ sentence.length

/-- `toLowerCase`, modelled on the Basic Latin / Latin-1 repertoire:
`A`–`Z` and `À`–`Þ` (except `×`) map down by 32 code points. -/
def jsToLower (c : Char) : Char :=
  if ('A' ≤ c ∧ c ≤ 'Z') ∨ ('À' ≤ c ∧ c ≤ 'Þ' ∧ c ≠ '×') then
    Char.ofNat (c.toNat + 32)
  else c

/-- Composition of `normalize("NFD")` with the removal of the combining
mark, for the lowercase Latin-1 precomposed letters: the letter is
replaced by its base letter (`é` → `e`, …).  Letters without a canonical
decomposition (`æ`, `ð`, `ø`, `þ`, `ß`) are unchanged. -/
def nfdStrip (c : Char) : Char :=
  if c ∈ ['à', 'á', 'â', 'ã', 'ä', 'å'] then 'a'
  else if c = 'ç' then 'c'
  else if c ∈ ['è', 'é', 'ê', 'ë'] then 'e'
  else if c ∈ ['ì', 'í', 'î', 'ï'] then 'i'
  else if c = 'ñ' then 'n'
  else if c ∈ ['ò', 'ó', 'ô', 'õ', 'ö'] then 'o'
  else if c ∈ ['ù', 'ú', 'û', 'ü'] then 'u'
  else if c ∈ ['ý', 'ÿ'] then 'y'
  else c

/-- Standalone characters of the `\p{Diacritic}` class in the Basic
Latin / Latin-1 repertoire, removed (replaced by the empty string) by
`replace(/[\p{Diacritic}]/gu, "")`. -/
def isDiacriticChar (c : Char) : Bool :=
  c = '^' ∨ c.toNat = 0x60 ∨ c.toNat = 0xa8 ∨ c.toNat = 0xaf ∨
  c.toNat = 0xb4 ∨ c.toNat = 0xb7 ∨ c.toNat = 0xb8

/-- The character class `[a-zà-ÿ\s-]` kept by the tokenizer; everything
else is replaced with a space. -/
def isTokenKeep (c : Char) : Bool :=
  ('a' ≤ c ∧ c ≤ 'z') ∨ ('à' ≤ c ∧ c ≤ 'ÿ') ∨ isWs c ∨ c = '-'

/-- Scan implementing `split(/\s+/)`: pieces between maximal whitespace
runs, with an empty leading (trailing) piece when the string starts
(ends) with whitespace.  `inSep` records whether the previous character
was part of a separator run. -/
def jsSplitWsAux : Bool → Str → Str → List Str
  | _, acc, [] => [acc.reverse]
  | inSep, acc, c :: cs =>
    if isWs c then
      if inSep then jsSplitWsAux true acc cs
      else acc.reverse :: jsSplitWsAux true [] cs
    else jsSplitWsAux false (c :: acc) cs

/-- `split(/\s+/)`. -/
def jsSplitWs (l : Str) : List Str := jsSplitWsAux false [] l

/-- `STOPWORDS` of the source. -/
def STOPWORDS : List Str :=
  ["a", "afin", "ai", "ainsi", "alors", "après", "au", "aucun", "aussi",
   "autre", "aux", "avant", "avec", "avoir", "bon", "car", "ce", "ceci",
   "cela", "ces", "cet", "cette", "ceux", "chaque", "comme", "comment",
   "dans", "de", "des", "du", "elle", "elles", "en", "encore", "est",
   "et", "étaient", "était", "être", "eu", "fait", "faites", "fais",
   "font", "ici", "il", "ils", "je", "la", "le", "les", "leur", "leurs",
   "lui", "mais", "mes", "moi", "mon", "ne", "nos", "notre", "nous",
   "on", "ou", "par", "pas", "peu", "plus", "pour", "qu", "que", "quel",
   "quelle", "quelles", "quels", "qui", "sa", "sans", "ses", "son",
   "sont", "sur", "ta", "tandis", "te", "tes", "toi", "ton", "toujours",
   "tous", "tout", "toute", "toutes", "tu", "un", "une", "vos", "votre",
   "vous", "y"].map String.data

/-- `tokenize` of the source: lowercase, NFD-decompose and strip
diacritics, replace characters outside `[a-zà-ÿ\s-]` with spaces, split
on whitespace runs, drop empty tokens and stop words. -/
def tokenize (sentence : Str) : List Str :=
  (jsSplitWs
      (((sentence.map jsToLower).map nfdStrip).filter
          (fun c => ¬ isDiacriticChar c)
        |>.map fun c => if isTokenKeep c then c else ' ')).filter
    fun token => token ≠ [] ∧ ¬ STOPWORDS.contains token

/-- Lookup in the association-list embedding of a JavaScript `Map`
(`Map.prototype.get`, `undefined` as `none`). -/
def mapGet {β : Type} (m : List (Str × β)) (k : Str) : Option β :=
  match m with
  | [] => none
  | (k₀, v₀) :: rest => if k₀ = k then some v₀ else mapGet rest k

/-- Update in the association-list embedding of a JavaScript `Map`
(`Map.prototype.set`: overwrite in place, or append a new key). -/
def mapSet {β : Type} (m : List (Str × β)) (k : Str) (v : β) :
    List (Str × β) :=
  match m with
  | [] => [(k, v)]
  | (k₀, v₀) :: rest =>
    if k₀ = k then (k₀, v) :: rest else (k₀, v₀) :: mapSet rest k v

/-- `buildFrequencyMap` of the source: for every sentence and every one
of its tokens, increment the token's global count. -/
def buildFrequencyMap (sentences : List Str) : List (Str × Nat) :=
  sentences.foldl
    (fun freq sentence =>
      (tokenize sentence).foldl
        (fun f token => mapSet f token ((mapGet f token).getD 0 + 1)) freq)
    []

/-- `scoreSentences` of the source: a sentence with at least one token is
mapped to the sum of its tokens' frequencies divided by its token count
(floating-point division modelled as exact rational division). -/
def scoreSentences (sentences : List Str) (freq : List (Str × Nat)) :
    List (Str × ℚ) :=
  sentences.foldl
    (fun scores sentence =>
      let tokens := tokenize sentence
      if tokens.length = 0 then scores
      else
        mapSet scores sentence
          ((tokens.foldl
              (fun sum token => sum + ((mapGet freq token).getD 0 : ℚ)) 0) /
            (tokens.length : ℚ)))
    []

/-- Stable insertion of `x` into a list sorted by descending score:
`x` goes before the first element whose score does not exceed it. -/
def insertDesc (score : Str → ℚ) (x : Str) : List Str → List Str
  | [] => [x]
  | y :: ys => if score y ≤ score x then x :: y :: ys else y :: insertDesc score x ys

/-- Stable sort by descending score, embedding the (stable) JavaScript
`[...sentences].sort((a, b) => (scores.get(b) ?? 0) - (scores.get(a) ?? 0))`. -/
def sortDesc (score : Str → ℚ) : List Str → List Str
  | [] => []
  | x :: xs => insertDesc score x (sortDesc score xs)

/-- `pickTopSentences` of the source: sort a copy by descending score
(missing scores count as 0), keep the first `limit` as the strongest
set, then re-filter the original sequence by membership in that set. -/
def pickTopSentences (sentences : List Str) (scores : List (Str × ℚ))
    (limit : Nat) : List Str :=
  let sorted := sortDesc (fun s => (mapGet scores s).getD 0) sentences
  let strongest := sorted.take limit
  sentences.filter fun sentence => strongest.contains sentence

/-- The title delimiter class `[:.!?]`. -/
def isTitleDelim (c : Char) : Bool :=
  c = ':' ∨ c = '.' ∨ c = '!' ∨ c = '?'

/-- Scan implementing `split(/[:.!?]/)`: pieces between single delimiter
characters. -/
def jsSplitDelims : Str → List Str
  | [] => [[]]
  | c :: cs =>
    if isTitleDelim c then [] :: jsSplitDelims cs
    else
      match jsSplitDelims cs with
      | [] => [[c]]
      | p :: ps => (c :: p) :: ps

/-- The fixed fallback title of the source. -/
def titleFallback : Str := "Essentiel du chapitre".data

/-- `buildTitle` of the source: the fallback on an empty list, otherwise
the trimmed first piece of the first sentence split on `[:.!?]`, with
the fallback when that piece is empty. -/
def buildTitle (sentences : List Str) : Str :=
  match sentences with
  | [] => titleFallback
  | first :: _ =>
    let snippet := jsTrim ((jsSplitDelims first).headD [])
    if 0 < snippet.length then snippet else titleFallback

/-- JavaScript `Array.prototype.join(" ")`. -/
def joinSpace : List Str → Str
  | [] => []
  | [s] => s
  | s :: rest => s ++ ' ' :: joinSpace rest

/-- `buildThesis` of the source: join the first two sentences with a
space, re-collapse whitespace, trim. -/
def buildThesis (sentences : List Str) : Str :=
  jsTrim (collapseWs (joinSpace (sentences.take 2)))

/-- The fixed call-to-action lead-in of the source
(`Poursuivez le chapitre en développant: `). -/
def ctaLead : Str := "Poursuivez le chapitre en développant: ".data

/-- The fixed call-to-action fallback of the source. -/
def ctaFallback : Str :=
  "Concluez en soulignant la portée pratique de ces enseignements pour le lecteur.".data

/-- `buildCallToAction` of the source: the lead-in followed by the last
sentence, or the fallback when there is none (or it is empty). -/
def buildCallToAction (sentences : List Str) : Str :=
  let last := (sentences.getLast?).getD []
  if last = [] then ctaFallback else ctaLead ++ last

/-- The `Summary` record returned by `summarise`. -/
structure Summary where
  titleSuggestion : Str
  thesis : Str
  keyPoints : List Str
  callToAction : Str
deriving DecidableEq, Repr

/-- `summarise` of the source.  The single failure (`throw` on an empty
sentence list, the `EmptyDocument` condition) is embedded as `none`. -/
def summarise (text : Str) : Option Summary :=
  let sanitized := sanitizeText text
  let sentences := (splitIntoSentences sanitized).take 180
  if sentences.isEmpty then none
  else
    let freq := buildFrequencyMap sentences
    let scores := scoreSentences sentences freq
    let keySentences := pickTopSentences sentences scores MAX_KEY_POINTS
    some
      { titleSuggestion := buildTitle keySentences
        thesis := buildThesis sentences
        keyPoints := keySentences
        callToAction := buildCallToAction sentences }

/-- Specification-side notion for the scorer claims: the total number of
occurrences of token `t` across the tokenizations of all sentences. -/
def totalCount (sentences : List Str) (t : Str) : Nat :=
  ((sentences.map fun s => (tokenize s).count t).sum)

/-- Specification-side score of a sentence: the sum of its tokens'
frequencies (missing frequencies read as 0) divided by its token count. -/
def scoreVal (freq : List (Str × Nat)) (s : Str) : ℚ :=
  ((tokenize s).foldl
      (fun sum token => sum + ((mapGet freq token).getD 0 : ℚ)) 0) /
    ((tokenize s).length : ℚ)

/-- `startsWithSeg pat l`: `pat` is an initial segment of `l`. -/
def startsWithSeg : Str → Str → Bool
  | [], _ => true
  | _ :: _, [] => false
  | p :: ps, c :: cs => p = c && startsWithSeg ps cs

/-- `occursIn pat l`: `pat` occurs contiguously somewhere in `l`. -/
def occursIn (pat : Str) : Str → Bool
  | [] => startsWithSeg pat []
  | c :: cs => startsWithSeg pat (c :: cs) || occursIn pat cs

/-- A sentence of 52 characters used to build duplicate-sentence inputs. -/
def dupSentence : Str :=
  "Chatons joueurs attrapent des souris grises rapides.".data

/-- Seven copies of the same 52-character sentence: a document on which
the summarizer succeeds with seven key points. -/
def dupDocument : Str :=
  joinSpace (List.replicate 7 dupSentence)

/-- A 43-character sentence consisting entirely of stop words. -/
def stopwordSentence : Str :=
  "Le la les un une du des et ou ne pas il on.".data

/-- A 53-character sentence with content words. -/
def contentSentence : Str :=
  "Chatons adorables mangent des croquettes delicieuses.".data

/-- A two-sentence document whose first sentence tokenizes to nothing. -/
def stopwordDocument : Str :=
  stopwordSentence ++ ' ' :: contentSentence

/-- A 40-character sentence whose only token is `chat`, repeated eight
times. -/
def chatSentence : Str :=
  "Chat chat chat chat chat chat chat chat.".data

/-- A 40-character sentence whose only token is `rhum`, repeated eight
times. -/
def rhumSentence : Str :=
  "Rhum rhum rhum rhum rhum rhum rhum rhum.".data

/-- A document that segments into 181 sentences: 180 copies of
`chatSentence` followed by one `rhumSentence`. -/
def longDocument : Str :=
  joinSpace (List.replicate 180 chatSentence ++ [rhumSentence])

/-- A two-sentence document with distinct sentences, used as a concrete
instantiation point. -/
def twoSentenceDocument : Str :=
  "Renards agiles sautent sur le chien brun paresseux.".data ++
    ' ' :: "Bergers attentifs comptent vingt moutons blancs noirs.".data

/-- An input whose control characters are not whitespace. -/
def ctrlInput : Str := "ab\u0000\u0001cd".data

/-- First sentence (51 characters) of the two-sentence test document. -/
def twoSentenceFirst : Str :=
  "Renards agiles sautent sur le chien brun paresseux.".data

/-- Second sentence (54 characters) of the two-sentence test document. -/
def twoSentenceSecond : Str :=
  "Bergers attentifs comptent vingt moutons blancs noirs.".data

/-- The summary returned by `summarise` on `twoSentenceDocument`. -/
def twoSentenceSummary : Summary :=
  { titleSuggestion :=
      "Renards agiles sautent sur le chien brun paresseux".data
    thesis := twoSentenceFirst ++ ' ' :: twoSentenceSecond
    keyPoints := [twoSentenceFirst, twoSentenceSecond]
    callToAction := ctaLead ++ twoSentenceSecond }

/-- A 51-character sentence repeating the token `chat`. -/
def freqSentA : Str :=
  "Le chat mange le chat gris pres de la maison verte.".data

/-- A 54-character sentence without repeated content tokens. -/
def freqSentB : Str :=
  "Le chien dort sous le grand arbre vert du jardin clos.".data

/-- A 55-character text with no terminal punctuation at all. -/
def noTerminalText : Str :=
  "cinquante caracteres sans ponctuation terminale du tout".data

/-- Short sentence strings used to exercise duplicate selection. -/
def shortSentA : Str := "aa".data

/-- Short sentence strings used to exercise duplicate selection. -/
def shortSentB : Str := "bb".data

/-- A score map ranking `shortSentA` strictly above `shortSentB`. -/
def shortScores : List (Str × ℚ) := [(shortSentA, 5)]

/-- The sentence list actually used by `summarise`: the segmented
sentences truncated to the first 180. -/
def truncatedSentences (text : Str) : List Str :=
  (splitIntoSentences (sanitizeText text)).take 180

theorem mapGet_mapSet {β : Type} (m : List (Str × β)) (k : Str) (v : β)
    (k' : Str) :
    mapGet (mapSet m k v) k' = if k = k' then some v else mapGet m k' := by
  induction m with
  | nil => simp [mapSet, mapGet]
  | cons hd tl ih =>
    obtain ⟨k₀, v₀⟩ := hd
    by_cases h : k₀ = k
    · subst h
      by_cases h' : k₀ = k' <;> simp [mapSet, mapGet, h']
    · by_cases h' : k₀ = k'
      · subst h'
        simp [mapSet, mapGet, h, ih]
        rw [if_neg fun h'' => h h''.symm]
      · simp [mapSet, mapGet, h, h', ih]

theorem freq_foldl_tokens (tokens : List Str) (m : List (Str × Nat))
    (t : Str) :
    mapGet
        (tokens.foldl
          (fun f token => mapSet f token ((mapGet f token).getD 0 + 1)) m) t =
      if tokens.count t = 0 then mapGet m t
      else some ((mapGet m t).getD 0 + tokens.count t) := by
  induction tokens generalizing m with
  | nil => simp
  | cons tok rest ih =>
    simp only [List.foldl_cons, ih, mapGet_mapSet, List.count_cons]
    by_cases h : tok = t
    · subst h
      simp [mapGet_mapSet]
      split <;> simp_all
      omega
    · have hbeq : (t == tok) = false := by simpa using Ne.symm h
      simp [mapGet_mapSet, h, hbeq]

theorem freq_foldl_sentences (ss : List Str) (m : List (Str × Nat))
    (t : Str) :
    mapGet
        (ss.foldl
          (fun freq sentence =>
            (tokenize sentence).foldl
              (fun f token => mapSet f token ((mapGet f token).getD 0 + 1))
              freq)
          m) t =
      if totalCount ss t = 0 then mapGet m t
      else some ((mapGet m t).getD 0 + totalCount ss t) := by
  induction ss generalizing m with
  | nil => simp [totalCount]
  | cons s rest ih =>
    simp only [List.foldl_cons, ih, freq_foldl_tokens, totalCount,
      List.map_cons, List.sum_cons]
    by_cases hc : (tokenize s).count t = 0 <;>
      by_cases hr : ((rest.map fun s => (tokenize s).count t).sum) = 0
    all_goals simp [totalCount, hc, hr, freq_foldl_tokens]
    all_goals omega

theorem buildFrequencyMap_get (ss : List Str) (t : Str) :
    mapGet (buildFrequencyMap ss) t =
      if totalCount ss t = 0 then none else some (totalCount ss t) := by
  have h := freq_foldl_sentences ss [] t
  simp only [mapGet, Option.getD_none, Nat.zero_add] at h
  simpa [buildFrequencyMap] using h

theorem buildFrequencyMap_getD (ss : List Str) (t : Str) :
    (mapGet (buildFrequencyMap ss) t).getD 0 = totalCount ss t := by
  rw [buildFrequencyMap_get]
  split <;> simp_all

theorem score_foldl (ss : List Str) (freq : List (Str × Nat)) (s : Str)
    (acc : List (Str × ℚ)) :
    mapGet
        (ss.foldl
          (fun scores sentence =>
            let tokens := tokenize sentence
            if tokens.length = 0 then scores
            else
              mapSet scores sentence
                ((tokens.foldl
                    (fun sum token =>
                      sum + ((mapGet freq token).getD 0 : ℚ)) 0) /
                  (tokens.length : ℚ)))
          acc) s =
      if s ∈ ss ∧ tokenize s ≠ [] then some (scoreVal freq s)
      else mapGet acc s := by
  induction ss generalizing acc with
  | nil => simp
  | cons x rest ih =>
    simp only [List.foldl_cons, ih]
    by_cases hx : (tokenize x).length = 0
    · have hxe : tokenize x = [] := List.eq_nil_of_length_eq_zero hx
      by_cases hs : s = x
      · subst hs
        simp [hxe, hx]
      · simp only [hx, if_pos rfl, List.mem_cons]
        simp [hs, hxe]
    · by_cases hs : s = x
      · subst hs
        simp [hx, mapGet_mapSet, scoreVal]
        rw [if_neg (by simpa [List.length_eq_zero] using hx)]
      · simp only [hx, if_neg hx, List.mem_cons]
        simp [hs, mapGet_mapSet, Ne.symm hs]

theorem scoreSentences_get (ss : List Str) (freq : List (Str × Nat))
    (s : Str) :
    mapGet (scoreSentences ss freq) s =
      if s ∈ ss ∧ tokenize s ≠ [] then some (scoreVal freq s) else none := by
  have h := score_foldl ss freq s []
  simpa [scoreSentences] using h

open List

theorem foldl_add_map (f : Str → ℚ) (l : List Str) (init : ℚ) :
    l.foldl (fun sum x => sum + f x) init = init + (l.map f).sum := by
  induction l generalizing init with
  | nil => simp
  | cons x xs ih =>
    simp [ih]
    ring

theorem scoreVal_buildFrequencyMap (ss : List Str) (s : Str) :
    scoreVal (buildFrequencyMap ss) s =
      (((tokenize s).map fun t => (totalCount ss t : ℚ)).sum) /
        ((tokenize s).length : ℚ) := by
  simp [scoreVal, foldl_add_map, buildFrequencyMap_getD]

theorem mem_insertDesc (f : Str → ℚ) (x a : Str) (l : List Str) :
    a ∈ insertDesc f x l ↔ a = x ∨ a ∈ l := by
  induction l with
  | nil => simp [insertDesc]
  | cons y ys ih =>
    by_cases h : f y ≤ f x
    · simp [insertDesc, h]
    · simp only [insertDesc, if_neg h, List.mem_cons, ih]
      tauto

theorem mem_sortDesc (f : Str → ℚ) (a : Str) (l : List Str) :
    a ∈ sortDesc f l ↔ a ∈ l := by
  induction l with
  | nil => simp [sortDesc]
  | cons x xs ih => simp [sortDesc, mem_insertDesc, ih]

theorem length_insertDesc (f : Str → ℚ) (x : Str) (l : List Str) :
    (insertDesc f x l).length = l.length + 1 := by
  induction l with
  | nil => simp [insertDesc]
  | cons y ys ih =>
    by_cases h : f y ≤ f x <;> simp [insertDesc, h, ih]

theorem length_sortDesc (f : Str → ℚ) (l : List Str) :
    (sortDesc f l).length = l.length := by
  induction l with
  | nil => simp [sortDesc]
  | cons x xs ih => simp [sortDesc, length_insertDesc, ih]

theorem pickTopSentences_sublist (ss : List Str) (scores : List (Str × ℚ))
    (limit : Nat) : pickTopSentences ss scores limit <+ ss :=
  List.filter_sublist ss

theorem mem_pickTopSentences (ss : List Str) (scores : List (Str × ℚ))
    (limit : Nat) (s : Str) (h : s ∈ pickTopSentences ss scores limit) :
    s ∈ (sortDesc (fun x => (mapGet scores x).getD 0) ss).take limit := by
  have h' := List.mem_filter.mp h
  exact List.elem_iff.mp h'.2

theorem count_pickTopSentences (ss : List Str) (scores : List (Str × ℚ))
    (limit : Nat) (s : Str) (h : s ∈ pickTopSentences ss scores limit) :
    (pickTopSentences ss scores limit).count s = ss.count s := by
  have h' := List.mem_filter.mp h
  exact List.count_filter h'.2

theorem pickTopSentences_of_length_le (ss : List Str)
    (scores : List (Str × ℚ)) (limit : Nat) (h : ss.length ≤ limit) :
    pickTopSentences ss scores limit = ss := by
  have hlen : (sortDesc (fun s => (mapGet scores s).getD 0) ss).length ≤ limit := by
    rw [length_sortDesc]
    exact h
  show List.filter _ ss = ss
  simp only [List.take_of_length_le hlen]
  exact List.filter_eq_self.mpr fun s hs =>
    List.elem_iff.mpr ((mem_sortDesc _ s ss).mpr hs)

theorem collapseWsAux_head_true (l : Str) (c : Char)
    (h : (collapseWsAux true l).head? = some c) : isWs c = false := by
  induction l with
  | nil => simp [collapseWsAux] at h
  | cons d ds ih =>
    by_cases hd : isWs d
    · rw [collapseWsAux, if_pos hd, if_pos rfl] at h
      exact ih h
    · rw [collapseWsAux, if_neg hd] at h
      simp only [List.head?_cons, Option.some.injEq] at h
      subst h
      simpa using hd

theorem collapseWsAux_chain (b : Bool) (l : Str) :
    Chain' (fun a b => isWs a = false ∨ isWs b = false) (collapseWsAux b l) := by
  induction l generalizing b with
  | nil => simp [collapseWsAux]
  | cons d ds ih =>
    by_cases hd : isWs d
    · cases b with
      | true =>
        rw [collapseWsAux, if_pos hd, if_pos rfl]
        exact ih true
      | false =>
        rw [collapseWsAux, if_pos hd, if_neg (by simp)]
        rw [chain'_cons']
        refine ⟨fun y hy => Or.inr ?_, ih true⟩
        exact collapseWsAux_head_true ds y hy
    · rw [collapseWsAux, if_neg hd]
      rw [chain'_cons']
      refine ⟨fun y _ => Or.inl (by simpa using hd), ih false⟩

theorem mem_collapseWsAux (b : Bool) (l : Str) (c : Char)
    (h : c ∈ collapseWsAux b l) : c = ' ' ∨ (c ∈ l ∧ isWs c = false) := by
  induction l generalizing b with
  | nil => simp [collapseWsAux] at h
  | cons d ds ih =>
    by_cases hd : isWs d
    · cases b with
      | true =>
        rw [collapseWsAux, if_pos hd, if_pos rfl] at h
        rcases ih true h with h' | h'
        · exact Or.inl h'
        · exact Or.inr ⟨List.mem_cons_of_mem d h'.1, h'.2⟩
      | false =>
        rw [collapseWsAux, if_pos hd, if_neg (by simp)] at h
        rcases List.mem_cons.mp h with h' | h'
        · exact Or.inl h'
        · rcases ih true h' with h'' | h''
          · exact Or.inl h''
          · exact Or.inr ⟨List.mem_cons_of_mem d h''.1, h''.2⟩
    · rw [collapseWsAux, if_neg hd] at h
      rcases List.mem_cons.mp h with h' | h'
      · subst h'
        exact Or.inr ⟨List.mem_cons_self c ds, by simpa using hd⟩
      · rcases ih false h' with h'' | h''
        · exact Or.inl h''
        · exact Or.inr ⟨List.mem_cons_of_mem d h''.1, h''.2⟩

theorem replaceCtrl_not_ctrl (l : Str) (c : Char) (h : c ∈ replaceCtrl l) :
    isCtrl c = false := by
  simp only [replaceCtrl, List.mem_map] at h
  obtain ⟨d, _, hd⟩ := h
  by_cases h' : isCtrl d
  · rw [if_pos h'] at hd
    subst hd
    decide
  · rw [if_neg h'] at hd
    subst hd
    simpa using h'

theorem replaceCtrl_id (l : Str) (h : ∀ c ∈ l, isCtrl c = false) :
    replaceCtrl l = l := by
  induction l with
  | nil => rfl
  | cons c cs ih =>
    have hc : isCtrl c = false := h c (List.mem_cons_self c cs)
    have hrest : replaceCtrl cs = cs :=
      ih fun d hd => h d (List.mem_cons_of_mem c hd)
    show (if isCtrl c = true then ' ' else c) :: replaceCtrl cs = c :: cs
    rw [hrest, hc]
    simp

theorem dropWhile_decomp (p : Char → Bool) (l : Str) :
    ∃ t, l = t ++ l.dropWhile p := by
  induction l with
  | nil => exact ⟨[], rfl⟩
  | cons c cs ih =>
    by_cases h : p c
    · obtain ⟨t, ht⟩ := ih
      exact ⟨c :: t, by rw [List.dropWhile_cons_of_pos h]; simpa using ht⟩
    · exact ⟨[], by simp [List.dropWhile_cons_of_neg h]⟩

theorem jsTrim_decomp (l : Str) : ∃ u v, l = u ++ jsTrim l ++ v := by
  obtain ⟨u, hu⟩ := dropWhile_decomp isWs l
  obtain ⟨t, ht⟩ := dropWhile_decomp isWs (l.dropWhile isWs).reverse
  have hm : l.dropWhile isWs = jsTrim l ++ t.reverse := by
    have h2 := congrArg List.reverse ht
    simpa [jsTrim, List.reverse_append] using h2
  refine ⟨u, t.reverse, ?_⟩
  conv_lhs => rw [hu, hm]
  rw [List.append_assoc]

theorem mem_jsTrim (l : Str) (c : Char) (h : c ∈ jsTrim l) : c ∈ l := by
  obtain ⟨u, v, huv⟩ := jsTrim_decomp l
  rw [huv]
  simp [h]

theorem dropWhile_head_not_ws (l : Str) (c : Char)
    (h : (l.dropWhile isWs).head? = some c) : isWs c = false := by
  induction l with
  | nil => simp at h
  | cons d ds ih =>
    by_cases hd : isWs d
    · rw [List.dropWhile_cons_of_pos hd] at h
      exact ih h
    · rw [List.dropWhile_cons_of_neg hd] at h
      simp only [List.head?_cons, Option.some.injEq] at h
      subst h
      simpa using hd

theorem jsTrim_head_not_ws (l : Str) (c : Char)
    (h : (jsTrim l).head? = some c) : isWs c = false := by
  obtain ⟨t, ht⟩ := dropWhile_decomp isWs (l.dropWhile isWs).reverse
  have hm : l.dropWhile isWs = jsTrim l ++ t.reverse := by
    have h2 := congrArg List.reverse ht
    simpa [jsTrim, List.reverse_append] using h2
  cases hjs : jsTrim l with
  | nil => rw [hjs] at h; simp at h
  | cons a rest =>
    rw [hjs] at h
    simp only [List.head?_cons, Option.some.injEq] at h
    subst h
    refine dropWhile_head_not_ws l _ ?_
    rw [hm, hjs]
    simp

theorem jsTrim_last_not_ws (l : Str) (c : Char)
    (h : (jsTrim l).getLast? = some c) : isWs c = false := by
  have h' : ((l.dropWhile isWs).reverse.dropWhile isWs).head? = some c := by
    rw [jsTrim, List.getLast?_reverse] at h
    exact h
  exact dropWhile_head_not_ws _ c h'

theorem occursIn_two_spaces_false (l : Str)
    (h : Chain' (fun a b => isWs a = false ∨ isWs b = false) l) :
    occursIn [' ', ' '] l = false := by
  induction l with
  | nil => simp [occursIn, startsWithSeg]
  | cons c cs ih =>
    rw [occursIn, Bool.or_eq_false_iff]
    refine ⟨?_, ih h.tail⟩
    cases cs with
    | nil => simp [startsWithSeg]
    | cons d ds =>
      have hr := (chain'_cons.mp h).1
      by_cases hc : c = ' '
      · subst hc
        have hd : isWs d = false := by
          rcases hr with h' | h'
          · exact absurd h' (by decide)
          · exact h'
        have hd' : d ≠ ' ' := by
          intro hdd
          rw [hdd] at hd
          exact absurd hd (by decide)
        simp [startsWithSeg, eq_comm, hd']
      · simp [startsWithSeg, eq_comm, hc]

theorem jsTrim_length_le (l : Str) : (jsTrim l).length ≤ l.length := by
  obtain ⟨u, v, huv⟩ := jsTrim_decomp l
  conv_rhs => rw [huv]
  simp
  omega

theorem sentenceSplitAux_piece_length (rest : Str) :
    ∀ (prevTerm : Bool) (run acc p : Str),
      p ∈ sentenceSplitAux prevTerm run acc rest →
        p.length ≤ run.length + acc.length + rest.length := by
  induction rest with
  | nil =>
    intro prevTerm run acc p hp
    simp only [sentenceSplitAux, List.mem_singleton] at hp
    subst hp
    simp
    omega
  | cons c cs ih =>
    intro prevTerm run acc p hp
    simp only [sentenceSplitAux] at hp
    by_cases hrun : run = []
    · rw [if_neg (by simpa using hrun)] at hp
      by_cases hpw : prevTerm ∧ isWs c
      · rw [if_pos hpw] at hp
        have := ih prevTerm [c] acc p hp
        simp at this ⊢
        omega
      · rw [if_neg hpw] at hp
        have := ih (isTerm c) [] (c :: acc) p hp
        simp at this ⊢
        omega
    · rw [if_pos (by simpa using hrun)] at hp
      by_cases hw : isWs c
      · rw [if_pos hw] at hp
        have := ih prevTerm (c :: run) acc p hp
        simp at this ⊢
        omega
      · rw [if_neg hw] at hp
        by_cases hu : isBoundaryUpper c
        · rw [if_pos hu] at hp
          rcases List.mem_cons.mp hp with h' | h'
          · subst h'
            simp
            omega
          · have := ih (isTerm c) [] [c] p h'
            simp at this ⊢
            omega
        · rw [if_neg hu] at hp
          have := ih (isTerm c) [] (c :: (run ++ acc)) p hp
          simp at this ⊢
          omega

theorem mem_sentenceSplit_length (text p : Str) (hp : p ∈ sentenceSplit text) :
    p.length ≤ text.length := by
  have := sentenceSplitAux_piece_length text false [] [] p hp
  simpa using this

theorem splitIntoSentences_eq_nil_of_short (text : Str)
    (h : text.length < MIN_SENTENCE_LENGTH) : splitIntoSentences text = [] := by
  refine List.filter_eq_nil_iff.mpr ?_
  intro s hs
  simp only [List.mem_map] at hs
  obtain ⟨p, hp, rfl⟩ := hs
  have h1 := jsTrim_length_le p
  have h2 := mem_sentenceSplit_length text p hp
  simp only [decide_eq_true_eq]
  omega

theorem mem_splitIntoSentences_length (text s : Str)
    (hs : s ∈ splitIntoSentences text) : MIN_SENTENCE_LENGTH ≤ s.length := by
  have := (List.mem_filter.mp hs).2
  simpa using this

theorem sentenceSplitAux_no_term (rest : Str) :
    ∀ acc : Str, (∀ c ∈ rest, isTerm c = false) →
      sentenceSplitAux false [] acc rest = [acc.reverse ++ rest] := by
  induction rest with
  | nil =>
    intro acc _
    simp [sentenceSplitAux]
  | cons c cs ih =>
    intro acc h
    have hc : isTerm c = false := h c (List.mem_cons_self c cs)
    have step : sentenceSplitAux false [] acc (c :: cs) =
        sentenceSplitAux (isTerm c) [] (c :: acc) cs := by
      simp [sentenceSplitAux]
    rw [step, hc, ih (c :: acc) fun d hd => h d (List.mem_cons_of_mem c hd)]
    simp

theorem sentenceSplit_no_term (text : Str)
    (h : ∀ c ∈ text, isTerm c = false) : sentenceSplit text = [text] := by
  have := sentenceSplitAux_no_term text [] h
  simpa [sentenceSplit] using this

theorem summarise_eq_none_iff (text : Str) :
    summarise text = none ↔ splitIntoSentences (sanitizeText text) = [] := by
  have hiff : (truncatedSentences text).isEmpty = true ↔
      splitIntoSentences (sanitizeText text) = [] := by
    rw [List.isEmpty_iff, truncatedSentences, List.take_eq_nil_iff]
    simp
  simp only [summarise]
  by_cases h : ((splitIntoSentences (sanitizeText text)).take 180).isEmpty
  · rw [if_pos h]
    simpa using (hiff.mp h)
  · rw [if_neg h]
    have hne : splitIntoSentences (sanitizeText text) ≠ [] :=
      fun hc => h (hiff.mpr hc)
    simp [hne]

theorem summarise_some_fields (text : Str) (summary : Summary)
    (h : summarise text = some summary) :
    summary.titleSuggestion =
        buildTitle
          (pickTopSentences (truncatedSentences text)
            (scoreSentences (truncatedSentences text)
              (buildFrequencyMap (truncatedSentences text)))
            MAX_KEY_POINTS) ∧
      summary.thesis = buildThesis (truncatedSentences text) ∧
      summary.keyPoints =
        pickTopSentences (truncatedSentences text)
          (scoreSentences (truncatedSentences text)
            (buildFrequencyMap (truncatedSentences text)))
          MAX_KEY_POINTS ∧
      summary.callToAction = buildCallToAction (truncatedSentences text) := by
  simp only [summarise] at h
  split at h
  · exact Option.noConfusion h
  · injection h with h2
    subst h2
    exact ⟨rfl, rfl, rfl, rfl⟩

theorem jsSplitDelims_ne_nil (l : Str) : jsSplitDelims l ≠ [] := by
  induction l with
  | nil => simp [jsSplitDelims]
  | cons c cs ih =>
    by_cases h : isTitleDelim c
    · simp [jsSplitDelims, h]
    · cases hsp : jsSplitDelims cs with
      | nil => simp [jsSplitDelims, h, hsp]
      | cons p ps => simp [jsSplitDelims, h, hsp]

theorem jsSplitDelims_headD (l : Str) :
    (jsSplitDelims l).headD [] = l.takeWhile fun c => !isTitleDelim c := by
  induction l with
  | nil => simp [jsSplitDelims]
  | cons c cs ih =>
    by_cases h : isTitleDelim c
    · simp [jsSplitDelims, h, List.takeWhile_cons]
    · cases hsp : jsSplitDelims cs with
      | nil => exact absurd hsp (jsSplitDelims_ne_nil cs)
      | cons p ps =>
        rw [hsp] at ih
        simp only [List.headD_cons] at ih
        simp [jsSplitDelims, h, hsp, List.takeWhile_cons, ih]

theorem buildCallToAction_of_ne_nil (sentences : List Str)
    (hne : sentences ≠ []) (hall : ∀ s ∈ sentences, s ≠ []) :
    buildCallToAction sentences =
      ctaLead ++ (sentences.getLast?).getD [] := by
  unfold buildCallToAction
  rw [if_neg ?_]
  cases hl : sentences.getLast? with
  | none => exact absurd (List.getLast?_eq_none_iff.mp hl) hne
  | some a =>
    have ha : a ∈ sentences := by
      have := List.getLast?_eq_getLast sentences hne
      rw [this] at hl
      injection hl with hl2
      rw [← hl2]
      exact List.getLast_mem hne
    simpa [hl] using hall a ha

theorem dedup_length_le_of_subset (l l' : List Str) (h : ∀ a ∈ l, a ∈ l') :
    l.dedup.length ≤ l'.length := by
  rw [← List.card_toFinset]
  calc l.toFinset.card
      ≤ l'.toFinset.card := by
        refine Finset.card_le_card ?_
        intro a ha
        rw [List.mem_toFinset] at *
        exact h a ha
    _ ≤ l'.length := l'.toFinset_card_le

/-- C1 (counterexample): on a document made of seven identical
52-character sentences, `summarise` succeeds and `keyPoints` has seven
elements, so the claimed bound `keyPoints.length ≤ 6` fails. -/
theorem keyPoints_can_exceed_limit :
    (summarise dupDocument).map Summary.keyPoints =
        some (List.replicate 7 dupSentence) ∧
      6 < (List.replicate 7 dupSentence).length := by
  exact ⟨by decide!, by decide!⟩

/-- C1 (amended): for every input on which `summarise` succeeds,
`keyPoints` is no longer than the segmented sentence sequence, each of
its elements is a verbatim member of that sequence, it contains at most
6 distinct sentence strings, and when the segmented sentences are
pairwise distinct its length is at most 6. -/
theorem keyPoints_bounds (text : Str) (summary : Summary)
    (h : summarise text = some summary) :
    summary.keyPoints.length ≤
        (splitIntoSentences (sanitizeText text)).length ∧
      (∀ p ∈ summary.keyPoints, p ∈ splitIntoSentences (sanitizeText text)) ∧
      summary.keyPoints.dedup.length ≤ MAX_KEY_POINTS ∧
      ((splitIntoSentences (sanitizeText text)).Nodup →
        summary.keyPoints.length ≤ MAX_KEY_POINTS) := by
  obtain ⟨-, -, hkp, -⟩ := summarise_some_fields text summary h
  have hsub : summary.keyPoints <+ truncatedSentences text := by
    rw [hkp]
    exact pickTopSentences_sublist _ _ _
  have hts : truncatedSentences text <+ splitIntoSentences (sanitizeText text) :=
    List.take_sublist _ _
  have h3 : summary.keyPoints.dedup.length ≤ MAX_KEY_POINTS := by
    have hb :=
      dedup_length_le_of_subset summary.keyPoints
        ((sortDesc
            (fun s =>
              (mapGet
                  (scoreSentences (truncatedSentences text)
                    (buildFrequencyMap (truncatedSentences text)))
                  s).getD 0)
            (truncatedSentences text)).take MAX_KEY_POINTS)
        (fun a ha => mem_pickTopSentences _ _ _ a (hkp ▸ ha))
    refine hb.trans ?_
    rw [List.length_take]
    exact min_le_left _ _
  refine ⟨hsub.length_le.trans hts.length_le,
    fun p hp => hts.subset (hsub.subset hp), h3, fun hnd => ?_⟩
  have hndk : summary.keyPoints.Nodup := (hnd.sublist hts).sublist hsub
  rw [← hndk.dedup]
  exact h3

/-- C1 (amended) witness at the two-sentence document. -/
theorem keyPoints_bounds_witness :
    twoSentenceSummary.keyPoints.length ≤
        (splitIntoSentences (sanitizeText twoSentenceDocument)).length ∧
      (∀ p ∈ twoSentenceSummary.keyPoints,
        p ∈ splitIntoSentences (sanitizeText twoSentenceDocument)) ∧
      twoSentenceSummary.keyPoints.dedup.length ≤ MAX_KEY_POINTS ∧
      ((splitIntoSentences (sanitizeText twoSentenceDocument)).Nodup →
        twoSentenceSummary.keyPoints.length ≤ MAX_KEY_POINTS) :=
  keyPoints_bounds twoSentenceDocument twoSentenceSummary (by decide!)

/-- C2 (counterexample): on a two-sentence document whose first sentence
tokenizes to nothing, that sentence still appears in `keyPoints`, so
"can never be selected" fails. -/
theorem zeroToken_sentence_selected :
    (summarise stopwordDocument).map Summary.keyPoints =
        some [stopwordSentence, contentSentence] ∧
      tokenize stopwordSentence = [] := by
  exact ⟨by decide!, by decide!⟩

/-- C2 (amended): a sentence with empty tokenization is omitted from the
score map; however the selector ranks every sentence of the sequence
(scoreless ones at 0), so whenever the document has at most `limit`
sentences it selects all of them, zero-token sentences included. -/
theorem zeroToken_score_and_selector (ss : List Str)
    (freq : List (Str × Nat)) (scores : List (Str × ℚ)) (limit : Nat)
    (s : Str) :
    (tokenize s = [] → mapGet (scoreSentences ss freq) s = none) ∧
      (ss.length ≤ limit → pickTopSentences ss scores limit = ss) := by
  refine ⟨fun hz => ?_, fun hl => pickTopSentences_of_length_le ss scores limit hl⟩
  rw [scoreSentences_get]
  simp [hz]

/-- C2 (amended) witness at concrete sentence lists. -/
theorem zeroToken_score_and_selector_witness :
    mapGet
        (scoreSentences [stopwordSentence, contentSentence] [])
        stopwordSentence = none ∧
      pickTopSentences [stopwordSentence, contentSentence] [] 6 =
        [stopwordSentence, contentSentence] :=
  ⟨(zeroToken_score_and_selector [stopwordSentence, contentSentence] [] []
      6 stopwordSentence).1 (by decide!),
    (zeroToken_score_and_selector [stopwordSentence, contentSentence] [] []
      6 stopwordSentence).2 (by decide!)⟩

/-- C3 (counterexample): on an input whose control characters are not
whitespace, the sanitizer emits two consecutive spaces, because control
characters are replaced only after whitespace runs are collapsed. -/
theorem sanitize_double_space :
    sanitizeText ctrlInput = "ab  cd".data ∧
      occursIn [' ', ' '] (sanitizeText ctrlInput) = true := by
  exact ⟨by decide!, by decide!⟩

/-- C3 (amended): the sanitizer output contains no control character,
every whitespace character in it is a plain space, it has no leading or
trailing whitespace, and — provided the input has no control character
outside the whitespace class (0x00–0x08, 0x0e–0x1f, 0x7f) — it never
contains two consecutive spaces. -/
theorem sanitizeText_spec (input : Str) :
    (∀ c ∈ sanitizeText input, isCtrl c = false) ∧
      (∀ c ∈ sanitizeText input, isWs c = true → c = ' ') ∧
      (∀ c, (sanitizeText input).head? = some c → isWs c = false) ∧
      (∀ c, (sanitizeText input).getLast? = some c → isWs c = false) ∧
      ((∀ c ∈ input, isCtrl c = true → isWs c = true) →
        occursIn [' ', ' '] (sanitizeText input) = false) := by
  refine ⟨fun c hc => ?_, fun c hc hws => ?_, fun c hc => ?_, fun c hc => ?_,
    fun hctrl => ?_⟩
  · exact replaceCtrl_not_ctrl _ c (mem_jsTrim _ c hc)
  · have hc' := mem_jsTrim _ c hc
    simp only [replaceCtrl, List.mem_map] at hc'
    obtain ⟨d, hd, hde⟩ := hc'
    by_cases hdc : isCtrl d
    · rw [if_pos hdc] at hde
      exact hde.symm
    · rw [if_neg hdc] at hde
      subst hde
      rcases mem_collapseWsAux false input d hd with h' | h'
      · exact h'
      · rw [h'.2] at hws
        exact absurd hws (by simp)
  · exact jsTrim_head_not_ws _ c hc
  · exact jsTrim_last_not_ws _ c hc
  · have hid : replaceCtrl (collapseWs input) = collapseWs input := by
      refine replaceCtrl_id _ fun c hc => ?_
      rcases mem_collapseWsAux false input c hc with h' | h'
      · rw [h']
        decide
      · by_cases hcc : isCtrl c
        · exact absurd (hctrl c h'.1 hcc) (by simp [h'.2])
        · simpa using hcc
    have hch : Chain' (fun a b => isWs a = false ∨ isWs b = false)
        (jsTrim (collapseWs input)) := by
      obtain ⟨u, v, huv⟩ := jsTrim_decomp (collapseWs input)
      exact List.Chain'.infix (collapseWsAux_chain false input)
        ⟨u, v, huv.symm⟩
    rw [sanitizeText, hid]
    exact occursIn_two_spaces_false _ hch

/-- C3 (amended) witness at a control-free input. -/
theorem sanitizeText_spec_witness :
    occursIn [' ', ' '] (sanitizeText "  a\t\nb  c  ".data) = false :=
  (sanitizeText_spec ("  a\t\nb  c  ".data)).2.2.2.2 (by decide!)

/-- C4 (confirmed): `summarise` fails exactly when no sentence survives
sanitization, segmentation and the 40-character filter (the single
failure, `EmptyDocument`, is embedded as `none`); in particular every
input whose sanitization is shorter than 40 characters fails, and it
succeeds whenever at least one sentence survives. -/
theorem summarise_failure_iff (text : Str) :
    (summarise text = none ↔ splitIntoSentences (sanitizeText text) = []) ∧
      ((sanitizeText text).length < MIN_SENTENCE_LENGTH →
        summarise text = none) ∧
      (splitIntoSentences (sanitizeText text) ≠ [] →
        (summarise text).isSome = true) := by
  refine ⟨summarise_eq_none_iff text, fun h => ?_, fun h => ?_⟩
  · exact (summarise_eq_none_iff text).mpr
      (splitIntoSentences_eq_nil_of_short _ h)
  · cases hs : summarise text with
    | none => exact absurd ((summarise_eq_none_iff text).mp hs) h
    | some s => rfl

/-- C4 witness: a 3-character input fails; the two-sentence document
succeeds. -/
theorem summarise_failure_iff_witness :
    summarise "abc".data = none ∧
      (summarise twoSentenceDocument).isSome = true :=
  ⟨(summarise_failure_iff "abc".data).2.1 (by decide!),
    (summarise_failure_iff twoSentenceDocument).2.2 (by decide!)⟩

/-- C5 (confirmed): the key points of a successful run form a sublist
(subsequence in original order) of the segmented sentence sequence, so
any two key points appear in their original relative order. -/
theorem keyPoints_subsequence (text : Str) (summary : Summary)
    (h : summarise text = some summary) :
    List.Sublist summary.keyPoints (splitIntoSentences (sanitizeText text)) := by
  obtain ⟨-, -, hkp, -⟩ := summarise_some_fields text summary h
  rw [hkp]
  exact (pickTopSentences_sublist _ _ _).trans (List.take_sublist _ _)

/-- C5 witness at the two-sentence document. -/
theorem keyPoints_subsequence_witness :
    List.Sublist twoSentenceSummary.keyPoints
      (splitIntoSentences (sanitizeText twoSentenceDocument)) :=
  keyPoints_subsequence twoSentenceDocument twoSentenceSummary (by decide!)

/-- C6 (confirmed): the frequency table maps every token to its total
number of occurrences over all sentences (and omits tokens that never
occur), and every sentence with at least one token is mapped by the
score map to the sum of its tokens' global frequencies divided by its
token count. -/
theorem frequency_and_scores (ss : List Str) :
    (∀ t, mapGet (buildFrequencyMap ss) t =
        if totalCount ss t = 0 then none else some (totalCount ss t)) ∧
      (∀ s ∈ ss, tokenize s ≠ [] →
        mapGet (scoreSentences ss (buildFrequencyMap ss)) s =
          some ((((tokenize s).map fun t => (totalCount ss t : ℚ)).sum) /
            ((tokenize s).length : ℚ))) := by
  refine ⟨buildFrequencyMap_get ss, fun s hs hne => ?_⟩
  rw [scoreSentences_get, if_pos ⟨hs, hne⟩, scoreVal_buildFrequencyMap]

/-- C6 witness: on two concrete sentences, `chat` has frequency 2 and
the first sentence's score is the stated quotient. -/
theorem frequency_and_scores_witness :
    mapGet (buildFrequencyMap [freqSentA, freqSentB]) "chat".data =
        (if totalCount [freqSentA, freqSentB] "chat".data = 0 then none
          else some (totalCount [freqSentA, freqSentB] "chat".data)) ∧
      mapGet (scoreSentences [freqSentA, freqSentB]
          (buildFrequencyMap [freqSentA, freqSentB])) freqSentA =
        some ((((tokenize freqSentA).map
              fun t => (totalCount [freqSentA, freqSentB] t : ℚ)).sum) /
          ((tokenize freqSentA).length : ℚ)) :=
  ⟨(frequency_and_scores [freqSentA, freqSentB]).1 ("chat".data),
    (frequency_and_scores [freqSentA, freqSentB]).2 freqSentA (by decide!)
      (by decide!)⟩

/-- C7 (confirmed): on text with no terminal punctuation the segmenter
returns the whole trimmed text as a single sentence when it reaches the
40-character floor, and nothing otherwise. -/
theorem splitIntoSentences_no_terminal (text : Str)
    (h : ∀ c ∈ text, isTerm c = false) :
    splitIntoSentences text =
      if MIN_SENTENCE_LENGTH ≤ (jsTrim text).length then [jsTrim text]
      else [] := by
  unfold splitIntoSentences
  rw [sentenceSplit_no_term text h]
  by_cases hl : MIN_SENTENCE_LENGTH ≤ (jsTrim text).length
  · rw [if_pos hl]
    simp [List.filter_cons, hl]
  · rw [if_neg hl]
    simp [List.filter_cons, hl]

/-- C7 witness at a 55-character punctuation-free text. -/
theorem splitIntoSentences_no_terminal_witness :
    splitIntoSentences noTerminalText =
      (if MIN_SENTENCE_LENGTH ≤ (jsTrim noTerminalText).length
        then [jsTrim noTerminalText] else []) :=
  splitIntoSentences_no_terminal noTerminalText (by decide!)

/-- C8 (confirmed): the title is the fixed fallback on an empty list,
and otherwise the trimmed prefix of the first key sentence before the
first `:`, `.`, `!` or `?` (the whole trimmed sentence when none
occurs), with the fallback only when that prefix is empty. -/
theorem buildTitle_spec (first : Str) (rest : List Str) :
    buildTitle [] = titleFallback ∧
      buildTitle (first :: rest) =
        (if jsTrim (first.takeWhile fun c => !isTitleDelim c) = []
          then titleFallback
          else jsTrim (first.takeWhile fun c => !isTitleDelim c)) := by
  refine ⟨rfl, ?_⟩
  show (if 0 < (jsTrim ((jsSplitDelims first).headD [])).length
      then jsTrim ((jsSplitDelims first).headD []) else titleFallback) = _
  rw [jsSplitDelims_headD]
  by_cases h : jsTrim (first.takeWhile fun c => !isTitleDelim c) = []
  · rw [if_pos h, if_neg (by simp [h])]
  · rw [if_neg h, if_pos (by simp [List.length_pos, h])]

/-- C9 (counterexample): on a 181-sentence document, `summarise`
succeeds but the call to action quotes the 180th sentence — the last of
the truncated list — not the document's final segmented sentence. -/
theorem callToAction_ignores_tail :
    180 < (splitIntoSentences (sanitizeText longDocument)).length ∧
      (splitIntoSentences (sanitizeText longDocument)).getLast? =
        some rhumSentence ∧
      (summarise longDocument).map Summary.callToAction =
        some (ctaLead ++ chatSentence) ∧
      occursIn rhumSentence (ctaLead ++ chatSentence) = false := by
  exact ⟨by decide!, by decide!, by decide!, by decide!⟩

/-- C9 (amended): the call to action of a successful run is the fixed
lead-in followed by the last sentence of the truncated (first-180)
sentence list. -/
theorem callToAction_last_truncated (text : Str) (summary : Summary)
    (h : summarise text = some summary) :
    summary.callToAction =
      ctaLead ++ ((truncatedSentences text).getLast?).getD [] := by
  obtain ⟨-, -, -, hcta⟩ := summarise_some_fields text summary h
  rw [hcta]
  have hne : truncatedSentences text ≠ [] := by
    intro hc
    have hnone : summarise text = none := by
      rw [summarise_eq_none_iff]
      have := List.take_eq_nil_iff.mp hc
      simpa using this
    rw [hnone] at h
    exact Option.noConfusion h
  refine buildCallToAction_of_ne_nil _ hne fun s hs hnil => ?_
  have hs' : s ∈ splitIntoSentences (sanitizeText text) :=
    (List.take_sublist _ _).subset hs
  have hlen := mem_splitIntoSentences_length _ s hs'
  rw [hnil] at hlen
  simp [MIN_SENTENCE_LENGTH] at hlen

/-- C9 (amended) witness at the two-sentence document. -/
theorem callToAction_last_truncated_witness :
    twoSentenceSummary.callToAction =
      ctaLead ++ ((truncatedSentences twoSentenceDocument).getLast?).getD [] :=
  callToAction_last_truncated twoSentenceDocument twoSentenceSummary
    (by decide!)

/-- C10 (confirmed): selection is keyed by sentence text: when a
sentence string is selected, the output contains every occurrence of it
from the input sequence. -/
theorem pickTop_keeps_all_occurrences (ss : List Str)
    (scores : List (Str × ℚ)) (limit : Nat) (s : Str)
    (h : s ∈ pickTopSentences ss scores limit) :
    (pickTopSentences ss scores limit).count s = ss.count s := by
  have h' := List.mem_filter.mp h
  exact List.count_filter h'.2

/-- C10 witness: with both copies of a duplicate sentence selected by a
one-element strongest set, the output keeps both occurrences. -/
theorem pickTop_keeps_all_occurrences_witness :
    (pickTopSentences [shortSentA, shortSentB, shortSentA] shortScores
          1).count shortSentA =
      ([shortSentA, shortSentB, shortSentA] : List Str).count shortSentA :=
  pickTop_keeps_all_occurrences [shortSentA, shortSentB, shortSentA]
    shortScores 1 shortSentA (by decide!)
